import Mathlib

/-!
Verification development for the oekobaudat-bsdd-mapping repository.

The Python sources are shallowly embedded:
  * `src/02_map_etim_to_oekobaudat_llm.py` — `LLMOnlyMatcher.create_mapping`,
    `LLMOnlyMatcher.create_prompt` (candidate truncation);
  * `src/utils/llm_matcher_azure.py` — `AzureOpenAIMatcher.find_best_match_llm`;
  * `src/03_validate_accuracy.py` — `evaluate_method`;
  * `src/03_create_validation_sample.py` — `create_validation_sample`;
  * `src/01_build_oekobaudat_rdf.py` — `AutoTranslator.translate`,
    `OekobaudatRdfBuilder._parse_categories_recursive`,
    `OekobaudatRdfBuilder._name_to_class_name`,
    `OekobaudatRdfBuilder.add_category_to_graph`.

Python `float` confidence values are modelled by `ℚ`; all numeric literals
appearing in the code (0.5, 0.8, 0.9, …) are exactly representable, and the
comparisons performed by the code on them coincide with the rational ones.
Python `dict`s are modelled by association lists with dict-style lookup,
`random.sample` by an abstract sampler that returns a duplicate-free
selection (a sub-permutation) of the requested size.
-/

namespace Oekobaudat

/-! ## Data model of `02_map_etim_to_oekobaudat_llm.py` -/

/-- `BsddClass` dataclass: one entry of the external (ETIM/bsDD) classification. -/
structure BsddClass where
  uri : String
  code : String
  name : String
  definition : String
  domain_namespace : String
deriving DecidableEq, Repr

/-- `OekobaudatCategory` dataclass of `02_map_etim_to_oekobaudat_llm.py`
(German only: id, name, parent id, full path, uri). -/
structure OekobaudatCategory where
  id : String
  name_de : String
  parent_id : Option String
  full_path_de : String
  uri : String
deriving DecidableEq, Repr

/-- The shape of a successfully JSON-parsed LLM reply used by
`LLMOnlyMatcher.create_mapping`: keys `category_id`, `confidence`,
`reasoning` must be present (a missing key raises and is caught, yielding
`None`, which we model as the `none` response); `match_type` is read with
`result.get('match_type', 'closeMatch')`, hence optional. -/
structure LLMResponse where
  category_id : String
  confidence : ℚ
  match_type : Option String
  reasoning : String
deriving DecidableEq, Repr

/-- `Mapping` dataclass: the correspondence emitted for one entry. -/
structure Mapping where
  bsdd_class : BsddClass
  oekobaudat_category : OekobaudatCategory
  match_type : String
  confidence_score : ℚ
  reasoning : String
  method : String
deriving DecidableEq, Repr

/-- `LLMOnlyMatcher.create_prompt` enumerates `candidates[:10]` — only the
first ten categories are shown to the LLM. -/
def create_prompt_candidates (candidates : List OekobaudatCategory) :
    List OekobaudatCategory :=
  candidates.take 10

/-- `LLMOnlyMatcher.create_mapping`, after the LLM call.  The raw outcome of
`query_llm` + `json.loads` (+ key extraction) is abstracted as
`Option LLMResponse`: `none` for an empty reply, a JSON decode error or a
missing mandatory key (all caught and returned as `None` in the source).
On a parsed response the code
  * looks the returned `category_id` up in the **full** `categories` list
    (`next((c for c in categories if c.id == result['category_id']), None)`),
    returning `None` if absent;
  * if `confidence < 0.5`, still returns a `Mapping` with
    `match_type='noMatch'`;
  * otherwise returns a `Mapping` with
    `match_type=result.get('match_type', 'closeMatch')`. -/
def create_mapping (bsdd_class : BsddClass)
    (categories : List OekobaudatCategory) :
    Option LLMResponse → Option Mapping
  | none => none
  | some result =>
    match categories.find? (fun c => c.id = result.category_id) with
    | none => none
    | some category =>
      if result.confidence < 1/2 then
        some { bsdd_class := bsdd_class
               oekobaudat_category := category
               match_type := "noMatch"
               confidence_score := result.confidence
               reasoning := result.reasoning
               method := "llm-only" }
      else
        some { bsdd_class := bsdd_class
               oekobaudat_category := category
               match_type := result.match_type.getD "closeMatch"
               confidence_score := result.confidence
               reasoning := result.reasoning
               method := "llm-only" }

/-- `LLMMatchResult` dataclass of `utils/llm_matcher_azure.py`. -/
structure LLMMatchResult where
  category_id : String
  category_name : String
  confidence : ℚ
  reasoning : String
  match_type : String
deriving DecidableEq, Repr

/-- The shape of a successfully parsed reply inside
`AzureOpenAIMatcher.find_best_match_llm`: keys `category_id`,
`category_name`, `confidence`, `reasoning` mandatory, `match_type` read via
`result.get("match_type", "closeMatch")`. -/
structure AzureResponse where
  category_id : String
  category_name : String
  confidence : ℚ
  match_type : Option String
  reasoning : String
deriving DecidableEq, Repr

/-- `AzureOpenAIMatcher.find_best_match_llm`, after the LLM call: a parse
failure gives `None`; otherwise the fields are copied verbatim into an
`LLMMatchResult`, with `match_type` defaulted to `"closeMatch"`.  No
validation of `category_id` against the candidate list and no clamping of
`confidence` is performed. -/
def find_best_match_llm : Option AzureResponse → Option LLMMatchResult
  | none => none
  | some result =>
    some { category_id := result.category_id
           category_name := result.category_name
           confidence := result.confidence
           match_type := result.match_type.getD "closeMatch"
           reasoning := result.reasoning }

/-- Modelled from the spec (§4.3): the confidence-banding table, the label
names being those the code uses (`exactMatch`, `closeMatch`, `relatedMatch`,
`noMatch`).  Used only to compare the code's behaviour against the spec's
mandated banding. -/
def specBandOf (c : ℚ) : String :=
  if 9/10 ≤ c then "exactMatch"
  else if 7/10 ≤ c then "closeMatch"
  else if 1/2 ≤ c then "relatedMatch"
  else "noMatch"

/-! ## Fixtures for concrete evaluations -/

/-- A concrete taxonomy category (fixture). -/
def catA1 : OekobaudatCategory :=
  { id := "A.1", name_de := "Beton", parent_id := none,
    full_path_de := "Beton", uri := "https://oekobaudat.de/category/A.1" }

/-- A concrete external entry (fixture). -/
def entryX : BsddClass :=
  { uri := "uri-x", code := "EC000001", name := "Concrete",
    definition := "", domain_namespace := "etim" }

/-- Eleven categories with ids `C0` … `C10` (fixture): one more than the
ten shown to the LLM by `create_prompt`. -/
def elevenCats : List OekobaudatCategory :=
  (List.range 11).map fun i =>
    { id := "C" ++ toString i, name_de := "K" ++ toString i,
      parent_id := none, full_path_de := "K" ++ toString i, uri := "" }

/-! ## Scoring harness of `03_validate_accuracy.py` -/

/-- A prediction as consumed by `evaluate_method`: the code reads
`pred.bsdd_class.code` / `pred.get('code')`, the selected category id via
`pred.oekobaudat_category.id` / `pred.get('oekobaudat_category_id')`, and
the confidence via `pred.confidence_score` / `pred.get('confidence', 0)` —
both access paths yield the same three fields, modelled directly. -/
structure Prediction where
  code : String
  oekobaudat_category_id : String
  confidence_score : ℚ
deriving DecidableEq, Repr

/-- One ground-truth record (`validation_sample.json` entry, annotated). -/
structure GroundTruthRecord where
  code : String
  correct_oekobaudat_id : String
deriving DecidableEq, Repr

/-- One recorded disagreement of `evaluate_method`. -/
structure EvalError where
  code : String
  predicted : String
  actual : String
  confidence : ℚ
deriving DecidableEq, Repr

/-- The dict comprehension
`gt_dict = {v['code']: v['correct_oekobaudat_id'] for v in ground_truth}`:
lookup in a Python dict built left to right, later records overwriting
earlier ones with the same code. -/
def gt_dict (ground_truth : List GroundTruthRecord) (code : String) :
    Option String :=
  (ground_truth.reverse.find? (fun v => v.code = code)).map
    (·.correct_oekobaudat_id)

/-- One iteration of the `for pred in predictions` loop of
`evaluate_method`: skip codes with no ground truth, count agreements,
append a record for each disagreement. -/
def evalStep (ground_truth : List GroundTruthRecord)
    (acc : ℕ × List EvalError) (pred : Prediction) : ℕ × List EvalError :=
  match gt_dict ground_truth pred.code with
  | none => acc
  | some actual =>
    if pred.oekobaudat_category_id = actual then (acc.1 + 1, acc.2)
    else (acc.1, acc.2 ++
      [{ code := pred.code, predicted := pred.oekobaudat_category_id,
         actual := actual, confidence := pred.confidence_score }])

/-- `evaluate_method(method_name, predictions, ground_truth)`:
`total = len(ground_truth)`; the loop accumulates `correct` and `errors`;
`accuracy = correct / total if total > 0 else 0`. -/
def evaluate_method (predictions : List Prediction)
    (ground_truth : List GroundTruthRecord) : ℚ × List EvalError :=
  let total := ground_truth.length
  let res := predictions.foldl (evalStep ground_truth) (0, [])
  (if 0 < total then (res.1 : ℚ) / (total : ℚ) else 0, res.2)

/-- Modelled from the spec (§4.6): accuracy = agreeing correspondences
divided by the count of ground-truth records whose code appears in the
correspondence set (records with no produced correspondence excluded from
the denominator). -/
def specAccuracy (predictions : List Prediction)
    (ground_truth : List GroundTruthRecord) : ℚ :=
  let covered := ground_truth.filter
    (fun v => predictions.any (fun p => p.code = v.code))
  let agree := predictions.filter
    (fun p => gt_dict ground_truth p.code = some p.oekobaudat_category_id)
  if 0 < covered.length then (agree.length : ℚ) / (covered.length : ℚ) else 0

/-- The disagreement detector corresponding to one prediction. -/
def evalErr (ground_truth : List GroundTruthRecord) (pred : Prediction) :
    Option EvalError :=
  (gt_dict ground_truth pred.code).bind fun actual =>
    if pred.oekobaudat_category_id = actual then none
    else some { code := pred.code, predicted := pred.oekobaudat_category_id,
                actual := actual, confidence := pred.confidence_score }

/-! ## Translator of `01_build_oekobaudat_rdf.py` (`AutoTranslator`) -/

/-- Python `str.split()` with no arguments: split on runs of whitespace,
discarding empty tokens. -/
def pySplit (s : String) : List String :=
  (s.split (fun c => c.isWhitespace)).filter (fun t => t ≠ "")

/-- Lookup in a Python `dict` modelled as an association list
(`k in d` / `d[k]`). -/
def dictLookup (d : List (String × String)) (k : String) : Option String :=
  (d.find? (fun e => e.1 = k)).map (·.2)

/-- `AutoTranslator.translate`: (1) whole-phrase hit in `self.cache`;
(2) whole-phrase hit in the hardcoded `TRANSLATION_DICT`; (3) word-by-word
over `german_text.split()`, each word going cache → dictionary → unchanged,
rejoined by `' '.join(translated_words)`. -/
def translate (cache dict : List (String × String))
    (german_text : String) : String :=
  match dictLookup cache german_text with
  | some t => t
  | none =>
    match dictLookup dict german_text with
    | some t => t
    | none =>
      String.intercalate " " ((pySplit german_text).map (fun word =>
        match dictLookup cache word with
        | some t => t
        | none =>
          match dictLookup dict word with
          | some t => t
          | none => word))

/-- Modelled from the spec (§4.2): per-token resolution through
cache-then-fallback-then-identity. -/
def resolveToken (cache dict : List (String × String)) (w : String) : String :=
  match dictLookup cache w with
  | some t => t
  | none =>
    match dictLookup dict w with
    | some t => t
    | none => w

/-- Modelled from the spec (§4.2): an exact cache hit on the whole phrase
wins; else an exact fallback-table hit wins; else the whitespace-delimited
tokens are resolved independently and rejoined with single spaces. -/
def translateSpec (cache dict : List (String × String))
    (phrase : String) : String :=
  match dictLookup cache phrase with
  | some t => t
  | none =>
    match dictLookup dict phrase with
    | some t => t
    | none =>
      String.intercalate " " ((pySplit phrase).map (resolveToken cache dict))

/-! ## Sampling of `03_create_validation_sample.py` -/

/-- Contract of `random.sample(population, k)` for `k ≤ len(population)`:
the draw has exactly `k` elements and is a permutation of a sublist of the
population (drawing without replacement). -/
def SampleOk {α : Type} (samp : List α → ℕ → List α) : Prop :=
  ∀ l k, k ≤ l.length → (samp l k).length = k ∧ (samp l k).Subperm l

/-- The scoring loop of `create_validation_sample`: collects
`(cls, mapping.confidence_score)` for each class whose `create_mapping`
returned a mapping (`if mapping:`); the matcher is abstracted as `score`. -/
def scored_classes {α : Type} (bsdd_classes : List α)
    (score : α → Option ℚ) : List (α × ℚ) :=
  bsdd_classes.filterMap (fun c => (score c).map (fun s => (c, s)))

/-- `high_conf = [c for c, s in scored_classes if s >= 0.8]`. -/
def high_conf {α : Type} (scored : List (α × ℚ)) : List α :=
  (scored.filter (fun cs => 8/10 ≤ cs.2)).map Prod.fst

/-- `medium_conf = [c for c, s in scored_classes if 0.5 <= s < 0.8]`. -/
def medium_conf {α : Type} (scored : List (α × ℚ)) : List α :=
  (scored.filter (fun cs => 1/2 ≤ cs.2 ∧ cs.2 < 8/10)).map Prod.fst

/-- `low_conf = [c for c, s in scored_classes if s < 0.5]`. -/
def low_conf {α : Type} (scored : List (α × ℚ)) : List α :=
  (scored.filter (fun cs => cs.2 < 1/2)).map Prod.fst

/-- `create_validation_sample(bsdd_classes, categories, sample_size,
stratified)`, the matcher abstracted as `score` and `random.sample` as
`samp`.  Stratified: `n_high = min(len(high_conf), sample_size // 2)`,
`n_medium = min(len(medium_conf), sample_size // 3)`,
`n_low = min(len(low_conf), sample_size - n_high - n_medium)`, and the
sample is the concatenation of the three draws.  Otherwise a single draw of
`min(sample_size, len(bsdd_classes))`. -/
def create_validation_sample {α : Type} (samp : List α → ℕ → List α)
    (bsdd_classes : List α) (score : α → Option ℚ)
    (sample_size : ℕ) (stratified : Bool) : List α :=
  if stratified then
    let scored := scored_classes bsdd_classes score
    let n_high := min (high_conf scored).length (sample_size / 2)
    let n_medium := min (medium_conf scored).length (sample_size / 3)
    let n_low := min (low_conf scored).length
      (sample_size - n_high - n_medium)
    samp (high_conf scored) n_high ++ samp (medium_conf scored) n_medium
      ++ samp (low_conf scored) n_low
  else
    samp bsdd_classes (min sample_size bsdd_classes.length)

/-- A deterministic sampler satisfying `SampleOk` (fixture): take the first
`k` elements. -/
def takeSample : List ℕ → ℕ → List ℕ := fun l k => l.take k

/-- A concrete scoring function (fixture): entry 0 scores 0.95, all others
0.25. -/
def scoreW : ℕ → Option ℚ := fun n => if n = 0 then some (19/20) else some (1/4)

/-! ## Taxonomy ingestion of `01_build_oekobaudat_rdf.py`
(`OekobaudatRdfBuilder._parse_categories_recursive`) -/

/-- An XML `<ns2:category>` element as consumed by
`_parse_categories_recursive`: `category.get('id')` is `None` when the
attribute is absent (modelled as `Option String`), the `name` attribute,
and the nested `ns2:category` children.  (The name attribute is modelled
as present; the claims settled here turn on the identifier.) -/
inductive XmlCat : Type
  | mk (id : Option String) (name : String) (children : List XmlCat)

/-- The declared identifier of an XML category element. -/
def XmlCat.idOf : XmlCat → Option String
  | .mk cid _ _ => cid

/-- The `OekobaudatCategory` dataclass as populated by
`01_build_oekobaudat_rdf.py`.  `id` is whatever `category.get('id')`
returned — possibly `None`, the dataclass annotation `id: str`
notwithstanding, since Python does not enforce annotations. -/
structure BuilderCategory where
  id : Option String
  name_de : String
  name_en : Option String
  parent_id : Option String
  children_ids : List (Option String)
  level : ℕ
  full_path_de : String
deriving DecidableEq, Repr

/-- `self.categories`: a Python dict keyed by `cat_id`, insertion-ordered;
assignment to an existing key overwrites in place. -/
abbrev CatStore : Type := List (Option String × BuilderCategory)

/-- `k in d` for the category dict. -/
def hasKey (store : CatStore) (k : Option String) : Bool :=
  store.any (fun e => e.1 = k)

/-- `self.categories[cat_id] = cat_obj` (overwrite keeps the original
position, a new key is appended). -/
def dictInsert (store : CatStore) (k : Option String)
    (v : BuilderCategory) : CatStore :=
  if hasKey store k then store.map (fun e => if e.1 = k then (k, v) else e)
  else store ++ [(k, v)]

/-- `self.categories[parent_id].children_ids.append(cat_id)`. -/
def appendChild (store : CatStore) (pk : Option String)
    (cid : Option String) : CatStore :=
  store.map (fun e =>
    if e.1 = pk then
      (e.1, { e.2 with children_ids := e.2.children_ids ++ [cid] })
    else e)

/-- The statement `if parent_id and parent_id in self.categories:
self.categories[parent_id].children_ids.append(cat_id)` — `parent_id` must
be truthy (not `None`, not the empty string) and a present key. -/
def linkParent (store : CatStore) (parent_id : Option String)
    (cid : Option String) : CatStore :=
  match parent_id with
  | none => store
  | some p =>
    if p ≠ "" ∧ hasKey store (some p) then appendChild store (some p) cid
    else store

/-- `_parse_categories_recursive(parent_elem, ns, parent_id, parent_path,
level)`: for each child element read `id` and `name`, build the path
(`f"{parent_path}/{name}"` when `parent_path` is non-empty, else the bare
name), store the category under its (possibly absent) id, append its id to
the parent's children list (`linkParent`), and recurse into the element's
own children at `level + 1`. -/
def parseCategoriesRec :
    List XmlCat → Option String → String → ℕ → CatStore → CatStore
  | [], _, _, _, store => store
  | XmlCat.mk cid name children :: rest, parent_id, parent_path, level,
      store =>
    let full_path :=
      if parent_path ≠ "" then parent_path ++ "/" ++ name else name
    let cat : BuilderCategory :=
      { id := cid, name_de := name, name_en := none, parent_id := parent_id,
        children_ids := [], level := level, full_path_de := full_path }
    let store2 := linkParent (dictInsert store cid cat) parent_id cid
    let store3 := parseCategoriesRec children cid full_path (level + 1) store2
    parseCategoriesRec rest parent_id parent_path level store3

/-- Every element of a forest, in document order. -/
def allNodes : List XmlCat → List XmlCat
  | [] => []
  | XmlCat.mk cid name children :: rest =>
    XmlCat.mk cid name children :: (allNodes children ++ allNodes rest)

/-! ## Graph projection of `01_build_oekobaudat_rdf.py`
(`_name_to_class_name`, `add_category_to_graph`) -/

/-- Python regex `\w` (ASCII range `[A-Za-z0-9_]`).  Python additionally
counts non-ASCII letters as word characters; the distinction plays no role
below — the concrete inputs used are ASCII. -/
def isWordChar (c : Char) : Bool := c.isAlphanum || c = '_'

/-- A character kept by `re.sub(r'[^\w\s-]', '', name_de)`. -/
def keepChar (c : Char) : Bool := isWordChar c || c.isWhitespace || c = '-'

/-- A character matched by `[\s-]`. -/
def isSpaceDash (c : Char) : Bool := c.isWhitespace || c = '-'

/-- `re.sub(r'[\s-]+', '_', ...)`: each maximal run of whitespace/hyphen
characters becomes a single underscore. -/
def collapseRuns : List Char → List Char
  | [] => []
  | [c] => if isSpaceDash c then ['_'] else [c]
  | c1 :: c2 :: rest =>
    if isSpaceDash c1 then
      if isSpaceDash c2 then collapseRuns (c2 :: rest)
      else '_' :: collapseRuns (c2 :: rest)
    else c1 :: collapseRuns (c2 :: rest)

/-- `OekobaudatRdfBuilder._name_to_class_name`: strip characters outside
`[\w\s-]`, then collapse whitespace/hyphen runs to underscores. -/
def _name_to_class_name (name_de : String) : String :=
  String.mk (collapseRuns (name_de.data.filter keepChar))

/-- The category record consumed by `add_category_to_graph` (identifiers
are present for an ingested, well-formed tree). -/
structure RdfCategory where
  id : String
  name_de : String
  name_en : Option String
  parent_id : Option String
  full_path_de : String
  full_path_en : Option String
deriving DecidableEq, Repr

/-- One RDF triple of the exported graph. -/
structure Triple where
  subj : String
  pred : String
  obj : String
deriving DecidableEq, Repr

/-- Namespace `https://oekobaudat.de/class/`. -/
def OBD : String := "https://oekobaudat.de/class/"

/-- Namespace `https://oekobaudat.de/category/`. -/
def OEKOCAT : String := "https://oekobaudat.de/category/"

/-- `rdf:type`. -/
def rdfType : String := "http://www.w3.org/1999/02/22-rdf-syntax-ns#type"

/-- `rdfs:label`. -/
def rdfsLabel : String := "http://www.w3.org/2000/01/rdf-schema#label"

/-- `rdfs:comment`. -/
def rdfsComment : String := "http://www.w3.org/2000/01/rdf-schema#comment"

/-- `rdfs:subClassOf`. -/
def rdfsSubClassOf : String :=
  "http://www.w3.org/2000/01/rdf-schema#subClassOf"

/-- `owl:Class`. -/
def owlClass : String := "http://www.w3.org/2002/07/owl#Class"

/-- `owl:ObjectProperty`. -/
def owlObjectProperty : String :=
  "http://www.w3.org/2002/07/owl#ObjectProperty"

/-- `self.OBD[class_name]`: the exported class node of a category is
derived from the sanitized German name alone. -/
def classUri (name_de : String) : String := OBD ++ _name_to_class_name name_de

/-- `self.OEKOCAT[cat_id]`. -/
def catUri (id : String) : String := OEKOCAT ++ id

/-- `self.OBD["okobaudatCategory"]` (the concatenation
`OBD ++ "okobaudatCategory"`, written out). -/
def okobaudatCategoryProp : String :=
  "https://oekobaudat.de/class/okobaudatCategory"

/-- `_define_custom_property`. -/
def definePropertyTriples : List Triple :=
  [{ subj := okobaudatCategoryProp, pred := rdfType,
     obj := owlObjectProperty },
   { subj := okobaudatCategoryProp, pred := rdfsLabel,
     obj := "ÖKOBAUDAT category reference" },
   { subj := okobaudatCategoryProp, pred := rdfsLabel,
     obj := "ÖKOBAUDAT Kategorie-Referenz" },
   { subj := okobaudatCategoryProp, pred := rdfsComment,
     obj := "Links an OWL class to its Ökobaudat category ID" }]

/-- Python truthiness of an optional string: `None` and `""` are falsy
(`if category.name_en:`, `if category.parent_id:`). -/
def strTruthy : Option String → Option String
  | none => none
  | some s => if s = "" then none else some s

/-- `add_category_to_graph(cat_id)` for a found category: OWL-class typing,
labels (German, plus English when truthy), comments (paths, English when
truthy), the `okobaudatCategory` cross-reference, and an `rdfs:subClassOf`
edge to the parent's class node when `category.parent_id` is truthy and
`self.categories.get(category.parent_id)` resolves. -/
def add_category_to_graph (categories : List RdfCategory)
    (category : RdfCategory) : List Triple :=
  let cls := classUri category.name_de
  [{ subj := cls, pred := rdfType, obj := owlClass },
   { subj := cls, pred := rdfsLabel, obj := category.name_de }]
  ++ ((strTruthy category.name_en).toList.map
      (fun e => { subj := cls, pred := rdfsLabel, obj := e }))
  ++ [{ subj := cls, pred := rdfsComment, obj := category.full_path_de }]
  ++ ((strTruthy category.full_path_en).toList.map
      (fun e => { subj := cls, pred := rdfsComment, obj := e }))
  ++ [{ subj := cls, pred := okobaudatCategoryProp,
        obj := catUri category.id }]
  ++ ((strTruthy category.parent_id).bind (fun p =>
        (categories.find? (fun d => d.id = p)).map (fun parent_cat =>
          { subj := cls, pred := rdfsSubClassOf,
            obj := classUri parent_cat.name_de }))).toList

/-- `build_complete_graph`: the custom property plus every category's
triples (the rdflib `Graph` is a set; membership is what matters). -/
def build_complete_graph (categories : List RdfCategory) : List Triple :=
  definePropertyTriples
    ++ (categories.map (add_category_to_graph categories)).flatten

/-- Modelled from the spec (§8, property 2): re-ingesting the exported
taxonomy graph — no re-ingestion code exists in the repository.  Per the
graph's vocabulary, the parent of a class node is found by following its
`rdfs:subClassOf` edge and reading the target's `okobaudatCategory`
cross-reference. -/
def parent_of (g : List Triple) (subj : String) : Option String :=
  match g.find? (fun u => u.pred = rdfsSubClassOf ∧ u.subj = subj) with
  | none => none
  | some u =>
    match g.find? (fun v => v.pred = okobaudatCategoryProp
        ∧ v.subj = u.obj) with
    | none => none
    | some v => some v.obj

/-- Modelled from the spec (§8, property 2): the set of
(identifier, parent-identifier) pairs read back from the exported graph,
each identifier appearing as the object of an `okobaudatCategory` link. -/
def reingest_pairs (g : List Triple) : List (String × Option String) :=
  (g.filter (fun t => t.pred = okobaudatCategoryProp)).map
    (fun t => (t.obj, parent_of g t.subj))

/-- Two categories whose German names differ only in a character stripped
by `_name_to_class_name` — distinct ids, same sanitized name (fixture). -/
def rdfStoreBad : List RdfCategory :=
  [{ id := "1", name_de := "AB", name_en := none, parent_id := none,
     full_path_de := "AB", full_path_en := none },
   { id := "2", name_de := "A.B", name_en := none, parent_id := some "1",
     full_path_de := "AB/A.B", full_path_en := none }]

/-- A root category (fixture). -/
def rdfW1 : RdfCategory :=
  { id := "1", name_de := "Holz", name_en := none, parent_id := none,
    full_path_de := "Holz", full_path_en := none }

/-- A child of `rdfW1` (fixture). -/
def rdfW2 : RdfCategory :=
  { id := "2", name_de := "Vollholz", name_en := none, parent_id := some "1",
    full_path_de := "Holz/Vollholz", full_path_en := none }

/-- A two-category tree with distinct sanitized names (fixture). -/
def rdfStoreW : List RdfCategory := [rdfW1, rdfW2]

/-! ## Evaluation lemmas for `create_mapping` (shared helpers) -/

/-- If the returned identifier is not found, `create_mapping` yields `None`. -/
lemma create_mapping_eq_none (b : BsddClass)
    (cats : List OekobaudatCategory) (resp : LLMResponse)
    (hf : cats.find? (fun c => c.id = resp.category_id) = none) :
    create_mapping b cats (some resp) = none := by
  simp only [create_mapping, hf]

/-- Low-confidence branch of `create_mapping`. -/
lemma create_mapping_eq_low (b : BsddClass)
    (cats : List OekobaudatCategory) (resp : LLMResponse)
    (cat : OekobaudatCategory)
    (hf : cats.find? (fun c => c.id = resp.category_id) = some cat)
    (hc : resp.confidence < 1/2) :
    create_mapping b cats (some resp) =
      some { bsdd_class := b, oekobaudat_category := cat,
             match_type := "noMatch", confidence_score := resp.confidence,
             reasoning := resp.reasoning, method := "llm-only" } := by
  simp only [create_mapping, hf, if_pos hc]

/-- High-confidence branch of `create_mapping`. -/
lemma create_mapping_eq_high (b : BsddClass)
    (cats : List OekobaudatCategory) (resp : LLMResponse)
    (cat : OekobaudatCategory)
    (hf : cats.find? (fun c => c.id = resp.category_id) = some cat)
    (hc : ¬ resp.confidence < 1/2) :
    create_mapping b cats (some resp) =
      some { bsdd_class := b, oekobaudat_category := cat,
             match_type := resp.match_type.getD "closeMatch",
             confidence_score := resp.confidence,
             reasoning := resp.reasoning, method := "llm-only" } := by
  simp only [create_mapping, hf, if_neg hc]

/-- Inversion: a produced mapping comes from a found category and is the
low- or high-confidence record. -/
lemma create_mapping_cases (b : BsddClass)
    (cats : List OekobaudatCategory) (resp : LLMResponse) (m : Mapping)
    (h : create_mapping b cats (some resp) = some m) :
    ∃ cat, cats.find? (fun c => c.id = resp.category_id) = some cat ∧
      ((resp.confidence < 1/2 ∧
        m = { bsdd_class := b, oekobaudat_category := cat,
              match_type := "noMatch", confidence_score := resp.confidence,
              reasoning := resp.reasoning, method := "llm-only" }) ∨
       (¬ resp.confidence < 1/2 ∧
        m = { bsdd_class := b, oekobaudat_category := cat,
              match_type := resp.match_type.getD "closeMatch",
              confidence_score := resp.confidence,
              reasoning := resp.reasoning, method := "llm-only" })) := by
  cases hf : cats.find? (fun c => c.id = resp.category_id) with
  | none =>
      rw [create_mapping_eq_none b cats resp hf] at h
      exact Option.noConfusion h
  | some cat =>
      refine ⟨cat, rfl, ?_⟩
      by_cases hc : resp.confidence < 1/2
      · rw [create_mapping_eq_low b cats resp cat hf hc] at h
        exact Or.inl ⟨hc, (Option.some.inj h).symm⟩
      · rw [create_mapping_eq_high b cats resp cat hf hc] at h
        exact Or.inr ⟨hc, (Option.some.inj h).symm⟩

/-! ## C1: match-type vs confidence banding -/

/-- C1, counterexample: on a response with confidence 0.95 and
matcher-proposed label `closeMatch`, `create_mapping` emits a mapping whose
match-type is the matcher's label, not the §4.3 band (`exactMatch`) of its
confidence — so the banding table is not what sets the match-type. -/
theorem c1_matchtype_counterexample :
    ∃ m, create_mapping entryX [catA1]
        (some { category_id := "A.1", confidence := 19/20,
                match_type := some "closeMatch", reasoning := "r" }) = some m
      ∧ m.match_type ≠ specBandOf m.confidence_score := by
  refine ⟨_, create_mapping_eq_high entryX [catA1]
      { category_id := "A.1", confidence := 19/20,
        match_type := some "closeMatch", reasoning := "r" }
      catA1 (by decide) (by norm_num), ?_⟩
  show "closeMatch" ≠ specBandOf (19/20 : ℚ)
  unfold specBandOf
  rw [if_pos (by norm_num : (9/10 : ℚ) ≤ 19/20)]
  decide

/-- C1, amended: the emitted match-type equals the matcher-proposed label
(defaulting to `closeMatch` when omitted) whenever confidence ≥ 0.5, and is
forced to `noMatch` only when confidence < 0.5; the §4.3 banding table is
not applied above 0.5. -/
theorem c1_matchtype_amended (b : BsddClass)
    (cats : List OekobaudatCategory) (resp : LLMResponse) (m : Mapping)
    (h : create_mapping b cats (some resp) = some m) :
    m.match_type =
      if resp.confidence < 1/2 then "noMatch"
      else resp.match_type.getD "closeMatch" := by
  obtain ⟨cat, _, hcase⟩ := create_mapping_cases b cats resp m h
  rcases hcase with ⟨hc, rfl⟩ | ⟨hc, rfl⟩
  · rw [if_pos hc]
  · rw [if_neg hc]

/-- C1, witness for the amended theorem at a concrete input. -/
theorem c1_matchtype_amended_witness :
    ({ bsdd_class := entryX, oekobaudat_category := catA1,
       match_type := "closeMatch", confidence_score := 19/20,
       reasoning := "r", method := "llm-only" } : Mapping).match_type =
      if (19/20 : ℚ) < 1/2 then "noMatch"
      else (some "closeMatch").getD "closeMatch" :=
  c1_matchtype_amended entryX [catA1]
    { category_id := "A.1", confidence := 19/20,
      match_type := some "closeMatch", reasoning := "r" } _
    (create_mapping_eq_high entryX [catA1]
      { category_id := "A.1", confidence := 19/20,
        match_type := some "closeMatch", reasoning := "r" }
      catA1 (by decide) (by norm_num))

/-! ## C2: selected identifier outside the supplied candidate list -/

/-- C2, counterexample: with eleven categories, the prompt supplies only the
first ten to the Matcher (`create_prompt` truncates with `candidates[:10]`),
yet a response selecting `C10` — absent from those ten — is accepted and a
mapping is produced, because `create_mapping` checks the identifier against
the full category list instead of the truncated one. -/
theorem c2_unknown_id_counterexample :
    ("C10" ∉ (create_prompt_candidates elevenCats).map OekobaudatCategory.id)
    ∧ ∃ m, create_mapping entryX elevenCats
        (some { category_id := "C10", confidence := 4/5,
                match_type := some "closeMatch", reasoning := "r" }) = some m := by
  refine ⟨by decide, ⟨_, create_mapping_eq_high entryX elevenCats
    { category_id := "C10", confidence := 4/5,
      match_type := some "closeMatch", reasoning := "r" }
    { id := "C10", name_de := "K10", parent_id := none,
      full_path_de := "K10", uri := "" }
    (by decide) (by norm_num)⟩⟩

/-- C2, amended: an attempt is rejected (no mapping — the code's rendering
of `MatchError` is returning `None`) exactly when the selected identifier is
absent from the **full** category list passed to `create_mapping`; an
identifier in that list but outside the at-most-ten candidates actually
shown to the Matcher is silently accepted. -/
theorem c2_unknown_id_amended (b : BsddClass)
    (cats : List OekobaudatCategory) (resp : LLMResponse)
    (h : resp.category_id ∉ cats.map OekobaudatCategory.id) :
    create_mapping b cats (some resp) = none := by
  refine create_mapping_eq_none b cats resp ?_
  rw [List.find?_eq_none]
  intro c hc
  simp only [decide_eq_true_eq]
  intro hid
  exact h (List.mem_map.mpr ⟨c, hc, hid⟩)

/-- C2, witness: a response naming `Z.9`, absent from the category list,
produces no mapping. -/
theorem c2_unknown_id_amended_witness :
    create_mapping entryX [catA1]
      (some { category_id := "Z.9", confidence := 4/5,
              match_type := none, reasoning := "r" }) = none :=
  c2_unknown_id_amended entryX [catA1]
    { category_id := "Z.9", confidence := 4/5,
      match_type := none, reasoning := "r" } (by decide)

/-! ## C4: low confidence still yields a correspondence -/

/-- C4: when the response names a known category and its confidence is below
0.5, `create_mapping` still emits a mapping: the selected category is
retained, the match-type is forced to `noMatch`, and the entry is neither
dropped nor treated as an error. -/
theorem c4_low_confidence_emits (b : BsddClass)
    (cats : List OekobaudatCategory) (resp : LLMResponse)
    (cat : OekobaudatCategory)
    (hfind : cats.find? (fun c => c.id = resp.category_id) = some cat)
    (hlow : resp.confidence < 1/2) :
    create_mapping b cats (some resp) =
      some { bsdd_class := b, oekobaudat_category := cat,
             match_type := "noMatch", confidence_score := resp.confidence,
             reasoning := resp.reasoning, method := "llm-only" } :=
  create_mapping_eq_low b cats resp cat hfind hlow

/-- C4, witness at confidence 0.3. -/
theorem c4_low_confidence_emits_witness :
    create_mapping entryX [catA1]
      (some { category_id := "A.1", confidence := 3/10,
              match_type := some "closeMatch", reasoning := "weak" }) =
      some { bsdd_class := entryX, oekobaudat_category := catA1,
             match_type := "noMatch", confidence_score := 3/10,
             reasoning := "weak", method := "llm-only" } :=
  c4_low_confidence_emits entryX [catA1]
    { category_id := "A.1", confidence := 3/10,
      match_type := some "closeMatch", reasoning := "weak" }
    catA1 (by decide) (by norm_num)

/-! ## C8: confidence range -/

/-- C8, counterexample: a response with raw confidence 1.5 is accepted and
the emitted mapping carries confidence 1.5, outside `[0, 1]` — no clamping
is performed anywhere on the path. -/
theorem c8_confidence_counterexample :
    ∃ m, create_mapping entryX [catA1]
        (some { category_id := "A.1", confidence := 3/2,
                match_type := none, reasoning := "r" }) = some m
      ∧ ¬(0 ≤ m.confidence_score ∧ m.confidence_score ≤ 1) := by
  refine ⟨_, create_mapping_eq_high entryX [catA1]
      { category_id := "A.1", confidence := 3/2,
        match_type := none, reasoning := "r" }
      catA1 (by decide) (by norm_num), ?_⟩
  show ¬((0:ℚ) ≤ 3/2 ∧ (3/2:ℚ) ≤ 1)
  norm_num

/-- C8, amended: both matchers pass the response's numeric confidence
through verbatim — the emitted confidence equals the raw one, whatever its
value; no clamping into `[0, 1]` takes place. -/
theorem c8_confidence_amended (b : BsddClass)
    (cats : List OekobaudatCategory) (resp : LLMResponse) (m : Mapping)
    (aresp : AzureResponse) (r : LLMMatchResult)
    (h : create_mapping b cats (some resp) = some m)
    (h2 : find_best_match_llm (some aresp) = some r) :
    m.confidence_score = resp.confidence ∧ r.confidence = aresp.confidence := by
  constructor
  · obtain ⟨cat, _, hcase⟩ := create_mapping_cases b cats resp m h
    rcases hcase with ⟨_, rfl⟩ | ⟨_, rfl⟩ <;> rfl
  · simp only [find_best_match_llm, Option.some.injEq] at h2
    rw [← h2]

/-- C8, witness for the amended theorem at raw confidence 1.5. -/
theorem c8_confidence_amended_witness :
    ({ bsdd_class := entryX, oekobaudat_category := catA1,
       match_type := "closeMatch", confidence_score := 3/2,
       reasoning := "r", method := "llm-only" } : Mapping).confidence_score
        = (3/2 : ℚ)
    ∧ ({ category_id := "A.1", category_name := "Concrete",
         confidence := 3/2, reasoning := "r",
         match_type := "closeMatch" } : LLMMatchResult).confidence
        = (3/2 : ℚ) :=
  c8_confidence_amended entryX [catA1]
    { category_id := "A.1", confidence := 3/2,
      match_type := some "closeMatch", reasoning := "r" } _
    { category_id := "A.1", category_name := "Concrete",
      confidence := 3/2, match_type := none, reasoning := "r" } _
    (create_mapping_eq_high entryX [catA1]
      { category_id := "A.1", confidence := 3/2,
        match_type := some "closeMatch", reasoning := "r" }
      catA1 (by decide) (by norm_num))
    rfl


/-- The scoring loop, declaratively: the fold counts agreeing predictions
and appends one record per disagreement (shared helper). -/
lemma evaluate_method_loop (ground_truth : List GroundTruthRecord)
    (preds : List Prediction) (n : ℕ) (es : List EvalError) :
    preds.foldl (evalStep ground_truth) (n, es) =
      (n + (preds.filter (fun p =>
          gt_dict ground_truth p.code = some p.oekobaudat_category_id)).length,
       es ++ preds.filterMap (evalErr ground_truth)) := by
  induction preds generalizing n es with
  | nil => simp
  | cons p ps ih =>
      cases hg : gt_dict ground_truth p.code with
      | none =>
          have hstep : evalStep ground_truth (n, es) p = (n, es) := by
            simp [evalStep, hg]
          have hfil : (p :: ps).filter (fun q => gt_dict ground_truth q.code
              = some q.oekobaudat_category_id) = ps.filter (fun q =>
              gt_dict ground_truth q.code = some q.oekobaudat_category_id) := by
            simp [List.filter_cons, hg]
          have herr : (p :: ps).filterMap (evalErr ground_truth)
              = ps.filterMap (evalErr ground_truth) := by
            simp [List.filterMap_cons, evalErr, hg]
          rw [List.foldl_cons, hstep, hfil, herr]
          exact ih n es
      | some actual =>
          by_cases he : p.oekobaudat_category_id = actual
          · have hstep : evalStep ground_truth (n, es) p = (n + 1, es) := by
              simp [evalStep, hg, he]
            have hfil : (p :: ps).filter (fun q => gt_dict ground_truth q.code
                = some q.oekobaudat_category_id) = p :: ps.filter (fun q =>
                gt_dict ground_truth q.code = some q.oekobaudat_category_id) := by
              simp [List.filter_cons, hg, he]
            have herr : (p :: ps).filterMap (evalErr ground_truth)
                = ps.filterMap (evalErr ground_truth) := by
              simp [List.filterMap_cons, evalErr, hg, he]
            rw [List.foldl_cons, hstep, hfil, herr, ih (n + 1) es]
            simp only [Prod.mk.injEq, List.length_cons]
            exact ⟨by omega, by simp⟩
          · have hstep : evalStep ground_truth (n, es) p =
                (n, es ++ [{ code := p.code,
                             predicted := p.oekobaudat_category_id,
                             actual := actual,
                             confidence := p.confidence_score }]) := by
              simp [evalStep, hg, he]
            have hfil : (p :: ps).filter (fun q => gt_dict ground_truth q.code
                = some q.oekobaudat_category_id) = ps.filter (fun q =>
                gt_dict ground_truth q.code = some q.oekobaudat_category_id) := by
              have : ¬ (gt_dict ground_truth p.code
                  = some p.oekobaudat_category_id) := by
                rw [hg]
                intro h
                exact he (Option.some.inj h).symm
              simp [List.filter_cons, this]
            have herr : (p :: ps).filterMap (evalErr ground_truth)
                = { code := p.code, predicted := p.oekobaudat_category_id,
                    actual := actual, confidence := p.confidence_score }
                  :: ps.filterMap (evalErr ground_truth) := by
              simp [List.filterMap_cons, evalErr, hg, he]
            rw [List.foldl_cons, hstep, hfil, herr, ih n _]
            simp

/-! ## C3: accuracy denominator and error records -/

/-- C3, counterexample: ground truth `{(C1, A.1), (C2, A.2)}` with a single
correspondence `(C1, A.1)`: the spec's formula (denominator = ground-truth
records covered by the correspondence set) gives accuracy 1, but
`evaluate_method` divides by `len(ground_truth)` = 2 and reports 1/2 — a
ground-truth record with no produced correspondence is **not** excluded
from the denominator. -/
theorem c3_denominator_counterexample :
    (evaluate_method
        [{ code := "C1", oekobaudat_category_id := "A.1",
           confidence_score := 9/10 }]
        [{ code := "C1", correct_oekobaudat_id := "A.1" },
         { code := "C2", correct_oekobaudat_id := "A.2" }]).1 = 1/2
    ∧ specAccuracy
        [{ code := "C1", oekobaudat_category_id := "A.1",
           confidence_score := 9/10 }]
        [{ code := "C1", correct_oekobaudat_id := "A.1" },
         { code := "C2", correct_oekobaudat_id := "A.2" }] = 1
    ∧ (1/2 : ℚ) ≠ 1 := by
  have hlook : gt_dict
      [{ code := "C1", correct_oekobaudat_id := "A.1" },
       { code := "C2", correct_oekobaudat_id := "A.2" }] "C1" = some "A.1" := by
    simp [gt_dict]
  refine ⟨?_, ?_, by norm_num⟩
  · rw [evaluate_method, evaluate_method_loop]
    simp only [List.filter_cons, List.filter_nil, hlook]
    norm_num
  · rw [specAccuracy]
    simp only [List.filter_cons, List.filter_nil, List.any_cons,
      List.any_nil, hlook]
    norm_num
    decide

/-- C3, amended: the accuracy is the number of correspondences agreeing
with the ground truth of their code, divided by the total number of
ground-truth records supplied — including records for which no
correspondence was produced (0 when there are none); each disagreement is
recorded, in order, with the predicted identifier, the actual identifier
and the correspondence's confidence. -/
theorem c3_accuracy_amended (preds : List Prediction)
    (ground_truth : List GroundTruthRecord) :
    evaluate_method preds ground_truth =
      (if 0 < ground_truth.length
        then ((preds.filter (fun p => gt_dict ground_truth p.code
            = some p.oekobaudat_category_id)).length : ℚ)
          / (ground_truth.length : ℚ)
        else 0,
       preds.filterMap (evalErr ground_truth)) := by
  rw [evaluate_method, evaluate_method_loop]
  simp

/-! ## C10: omitted match_type defaults to closeMatch -/

/-- C10: a parsed response naming a known category, with confidence ≥ 0.5
and no `match_type` field, yields a mapping whose match-type is
`closeMatch`, whatever band (exact, close or related) the confidence value
falls in. -/
theorem c10_default_closematch (b : BsddClass)
    (cats : List OekobaudatCategory) (resp : LLMResponse)
    (cat : OekobaudatCategory)
    (hfind : cats.find? (fun c => c.id = resp.category_id) = some cat)
    (hconf : 1/2 ≤ resp.confidence)
    (hmt : resp.match_type = none) :
    ∃ m, create_mapping b cats (some resp) = some m
      ∧ m.match_type = "closeMatch" := by
  refine ⟨_, create_mapping_eq_high b cats resp cat hfind (not_lt.mpr hconf), ?_⟩
  show resp.match_type.getD "closeMatch" = "closeMatch"
  rw [hmt]
  rfl

/-- C10, witness at confidence 0.95 — the `exactMatch` band of §4.3, yet
the emitted label is `closeMatch`. -/
theorem c10_default_closematch_witness :
    ∃ m, create_mapping entryX [catA1]
        (some { category_id := "A.1", confidence := 19/20,
                match_type := none, reasoning := "r" }) = some m
      ∧ m.match_type = "closeMatch" :=
  c10_default_closematch entryX [catA1]
    { category_id := "A.1", confidence := 19/20,
      match_type := none, reasoning := "r" }
    catA1 (by decide) (by norm_num) rfl

/-! ## C6: label resolution -/

/-- C6: `translate` implements exactly the spec's resolution order — an
exact whole-phrase cache hit wins, else an exact fallback-table hit, else
whitespace tokenization with cache-then-fallback-then-identity per token,
rejoined with single spaces; and a token found in neither table passes
through unchanged, so resolution never fails. -/
theorem c6_translate_resolution (cache dict : List (String × String))
    (s : String) :
    translate cache dict s = translateSpec cache dict s
    ∧ ∀ w, dictLookup cache w = none → dictLookup dict w = none →
        resolveToken cache dict w = w := by
  constructor
  · rfl
  · intro w h1 h2
    simp [resolveToken, h1, h2]

/-- C6, witness at a concrete phrase and tables. -/
theorem c6_translate_resolution_witness :
    translate [("Gips", "Gypsum")] [("und", "and")] "Gips und Stein"
      = translateSpec [("Gips", "Gypsum")] [("und", "and")] "Gips und Stein"
    ∧ resolveToken [("Gips", "Gypsum")] [("und", "and")] "Stein" = "Stein" :=
  ⟨(c6_translate_resolution [("Gips", "Gypsum")] [("und", "and")]
      "Gips und Stein").1,
   (c6_translate_resolution [("Gips", "Gypsum")] [("und", "and")]
      "Gips und Stein").2 "Stein" (by decide) (by decide)⟩

/-! ## Shared helpers for the sampling proofs -/

/-- First components of the scored list = entries with a defined score. -/
lemma scored_classes_map_fst {α : Type} (entries : List α)
    (score : α → Option ℚ) :
    (scored_classes entries score).map Prod.fst
      = entries.filter (fun c => (score c).isSome) := by
  induction entries with
  | nil => rfl
  | cons c cs ih =>
      simp only [scored_classes, List.filterMap_cons, List.filter_cons]
      cases hsc : score c with
      | none => simpa [hsc] using ih
      | some s => simpa [hsc] using ih

/-- A sub-permutation of a duplicate-free list is duplicate-free. -/
lemma subperm_nodup {α : Type} {l₁ l₂ : List α}
    (h : l₁.Subperm l₂) (d : l₂.Nodup) : l₁.Nodup := by
  obtain ⟨l, hp, hsub⟩ := h
  exact hp.nodup (d.sublist hsub)

/-- Membership in the high band. -/
lemma mem_high_conf {α : Type} {scored : List (α × ℚ)} {x : α} :
    x ∈ high_conf scored ↔ ∃ cs ∈ scored, cs.1 = x ∧ 8/10 ≤ cs.2 := by
  constructor
  · intro hx
    obtain ⟨cs, hmem, hfst⟩ := List.mem_map.mp hx
    obtain ⟨hin, hcond⟩ := List.mem_filter.mp hmem
    exact ⟨cs, hin, hfst, by simpa using hcond⟩
  · rintro ⟨cs, hin, hfst, hcond⟩
    exact List.mem_map.mpr ⟨cs, List.mem_filter.mpr ⟨hin, by simpa using hcond⟩,
      hfst⟩

/-- Membership in the medium band. -/
lemma mem_medium_conf {α : Type} {scored : List (α × ℚ)} {x : α} :
    x ∈ medium_conf scored ↔
      ∃ cs ∈ scored, cs.1 = x ∧ 1/2 ≤ cs.2 ∧ cs.2 < 8/10 := by
  constructor
  · intro hx
    obtain ⟨cs, hmem, hfst⟩ := List.mem_map.mp hx
    obtain ⟨hin, hcond⟩ := List.mem_filter.mp hmem
    have := of_decide_eq_true hcond
    exact ⟨cs, hin, hfst, this⟩
  · rintro ⟨cs, hin, hfst, hcond⟩
    exact List.mem_map.mpr ⟨cs, List.mem_filter.mpr
      ⟨hin, decide_eq_true hcond⟩, hfst⟩

/-- Membership in the low band. -/
lemma mem_low_conf {α : Type} {scored : List (α × ℚ)} {x : α} :
    x ∈ low_conf scored ↔ ∃ cs ∈ scored, cs.1 = x ∧ cs.2 < 1/2 := by
  constructor
  · intro hx
    obtain ⟨cs, hmem, hfst⟩ := List.mem_map.mp hx
    obtain ⟨hin, hcond⟩ := List.mem_filter.mp hmem
    exact ⟨cs, hin, hfst, by simpa using hcond⟩
  · rintro ⟨cs, hin, hfst, hcond⟩
    exact List.mem_map.mpr ⟨cs, List.mem_filter.mpr ⟨hin, by simpa using hcond⟩,
      hfst⟩

/-- The high and medium bands are disjoint when entries are distinct. -/
lemma high_medium_disjoint {α : Type} {scored : List (α × ℚ)}
    (hnd : (scored.map Prod.fst).Nodup) :
    ∀ x ∈ high_conf scored, x ∉ medium_conf scored := by
  intro x hx hm
  obtain ⟨cs, h1, hf1, hc1⟩ := mem_high_conf.mp hx
  obtain ⟨cs', h2, hf2, _, hc2⟩ := mem_medium_conf.mp hm
  have heq : cs = cs' :=
    List.inj_on_of_nodup_map hnd h1 h2 (by rw [hf1, hf2])
  subst heq
  linarith

/-- The high and low bands are disjoint when entries are distinct. -/
lemma high_low_disjoint {α : Type} {scored : List (α × ℚ)}
    (hnd : (scored.map Prod.fst).Nodup) :
    ∀ x ∈ high_conf scored, x ∉ low_conf scored := by
  intro x hx hl
  obtain ⟨cs, h1, hf1, hc1⟩ := mem_high_conf.mp hx
  obtain ⟨cs', h2, hf2, hc2⟩ := mem_low_conf.mp hl
  have heq : cs = cs' :=
    List.inj_on_of_nodup_map hnd h1 h2 (by rw [hf1, hf2])
  subst heq
  linarith

/-- The medium and low bands are disjoint when entries are distinct. -/
lemma medium_low_disjoint {α : Type} {scored : List (α × ℚ)}
    (hnd : (scored.map Prod.fst).Nodup) :
    ∀ x ∈ medium_conf scored, x ∉ low_conf scored := by
  intro x hx hl
  obtain ⟨cs, h1, hf1, hc1, _⟩ := mem_medium_conf.mp hx
  obtain ⟨cs', h2, hf2, hc2⟩ := mem_low_conf.mp hl
  have heq : cs = cs' :=
    List.inj_on_of_nodup_map hnd h1 h2 (by rw [hf1, hf2])
  subst heq
  linarith

/-! ## C5: validation sampling -/

/-- C5: for any sampler satisfying the without-replacement contract and
duplicate-free entries, the stratified sample contains exactly
`min(|high|, size/2)` high-band entries, `min(|medium|, size/3)`
medium-band entries and `min(|low|, size - n_high - n_medium)` low-band
entries — never exceeding a band's population, never drawing an entry twice
— and the non-stratified sample has exactly `min(size, population)`
entries. -/
theorem c5_sampling {α : Type} [DecidableEq α]
    (samp : List α → ℕ → List α) (entries : List α)
    (score : α → Option ℚ) (size : ℕ)
    (hs : SampleOk samp) (hnd : entries.Nodup) :
    ((create_validation_sample samp entries score size true).Nodup
      ∧ ((create_validation_sample samp entries score size true).filter
            (fun x => x ∈ high_conf (scored_classes entries score))).length
          = min (high_conf (scored_classes entries score)).length (size / 2)
      ∧ ((create_validation_sample samp entries score size true).filter
            (fun x => x ∈ medium_conf (scored_classes entries score))).length
          = min (medium_conf (scored_classes entries score)).length (size / 3)
      ∧ ((create_validation_sample samp entries score size true).filter
            (fun x => x ∈ low_conf (scored_classes entries score))).length
          = min (low_conf (scored_classes entries score)).length
              (size
                - min (high_conf (scored_classes entries score)).length
                    (size / 2)
                - min (medium_conf (scored_classes entries score)).length
                    (size / 3)))
    ∧ (create_validation_sample samp entries score size false).length
        = min size entries.length := by
  set scored := scored_classes entries score with hscored
  have hfstnd : (scored.map Prod.fst).Nodup := by
    rw [hscored, scored_classes_map_fst]
    exact hnd.filter _
  have hndH : (high_conf scored).Nodup :=
    hfstnd.sublist ((List.filter_sublist _).map _)
  have hndM : (medium_conf scored).Nodup :=
    hfstnd.sublist ((List.filter_sublist _).map _)
  have hndL : (low_conf scored).Nodup :=
    hfstnd.sublist ((List.filter_sublist _).map _)
  obtain ⟨hlenH, hspH⟩ :=
    hs (high_conf scored) (min (high_conf scored).length (size / 2))
      (min_le_left _ _)
  obtain ⟨hlenM, hspM⟩ :=
    hs (medium_conf scored) (min (medium_conf scored).length (size / 3))
      (min_le_left _ _)
  obtain ⟨hlenL, hspL⟩ :=
    hs (low_conf scored)
      (min (low_conf scored).length
        (size - min (high_conf scored).length (size / 2)
          - min (medium_conf scored).length (size / 3)))
      (min_le_left _ _)
  have hunf : create_validation_sample samp entries score size true =
      samp (high_conf scored) (min (high_conf scored).length (size / 2))
      ++ samp (medium_conf scored) (min (medium_conf scored).length (size / 3))
      ++ samp (low_conf scored)
          (min (low_conf scored).length
            (size - min (high_conf scored).length (size / 2)
              - min (medium_conf scored).length (size / 3))) := rfl
  have hsubH : ∀ x ∈ samp (high_conf scored)
      (min (high_conf scored).length (size / 2)), x ∈ high_conf scored :=
    fun x hx => hspH.subset hx
  have hsubM : ∀ x ∈ samp (medium_conf scored)
      (min (medium_conf scored).length (size / 3)), x ∈ medium_conf scored :=
    fun x hx => hspM.subset hx
  have hsubL : ∀ x ∈ samp (low_conf scored)
      (min (low_conf scored).length
        (size - min (high_conf scored).length (size / 2)
          - min (medium_conf scored).length (size / 3))),
      x ∈ low_conf scored :=
    fun x hx => hspL.subset hx
  refine ⟨⟨?_, ?_, ?_, ?_⟩, ?_⟩
  · -- no entry drawn twice
    rw [hunf]
    refine List.Nodup.append (List.Nodup.append (subperm_nodup hspH hndH)
        (subperm_nodup hspM hndM) ?_) (subperm_nodup hspL hndL) ?_
    · intro a ha hm
      exact high_medium_disjoint hfstnd a (hsubH a ha) (hsubM a hm)
    · intro a ha hl
      rcases List.mem_append.mp ha with h | h
      · exact high_low_disjoint hfstnd a (hsubH a h) (hsubL a hl)
      · exact medium_low_disjoint hfstnd a (hsubM a h) (hsubL a hl)
  · -- exactly n_high entries from the high band
    rw [hunf, List.append_assoc, List.filter_append, List.filter_append]
    rw [List.filter_eq_self.mpr (fun a ha => decide_eq_true (hsubH a ha))]
    rw [List.filter_eq_nil_iff.mpr (fun a ha hcond =>
      high_medium_disjoint hfstnd a (of_decide_eq_true hcond) (hsubM a ha))]
    rw [List.filter_eq_nil_iff.mpr (fun a ha hcond =>
      high_low_disjoint hfstnd a (of_decide_eq_true hcond) (hsubL a ha))]
    simpa using hlenH
  · -- exactly n_medium entries from the medium band
    rw [hunf, List.append_assoc, List.filter_append, List.filter_append]
    rw [List.filter_eq_self.mpr (fun a ha => decide_eq_true (hsubM a ha))]
    rw [List.filter_eq_nil_iff.mpr (fun a ha hcond =>
      high_medium_disjoint hfstnd a (hsubH a ha) (of_decide_eq_true hcond))]
    rw [List.filter_eq_nil_iff.mpr (fun a ha hcond =>
      medium_low_disjoint hfstnd a (of_decide_eq_true hcond) (hsubL a ha))]
    simpa using hlenM
  · -- the remainder from the low band
    rw [hunf, List.append_assoc, List.filter_append, List.filter_append]
    rw [List.filter_eq_self.mpr (fun a ha => decide_eq_true (hsubL a ha))]
    rw [List.filter_eq_nil_iff.mpr (fun a ha hcond =>
      high_low_disjoint hfstnd a (hsubH a ha) (of_decide_eq_true hcond))]
    rw [List.filter_eq_nil_iff.mpr (fun a ha hcond =>
      medium_low_disjoint hfstnd a (hsubM a ha) (of_decide_eq_true hcond))]
    simpa using hlenL
  · -- non-stratified: exactly min(size, population)
    exact (hs entries (min size entries.length) (min_le_right _ _)).1

/-- C5, witness: the `take`-prefix sampler satisfies the contract; at two
scored entries and `size = 2` the stratified sample is duplicate-free and
the simple sample has `min 2 2` elements. -/
theorem c5_sampling_witness :
    (create_validation_sample takeSample [0, 1] scoreW 2 true).Nodup
    ∧ (create_validation_sample takeSample [0, 1] scoreW 2 false).length
        = min 2 2 := by
  have hs : SampleOk takeSample := by
    intro l k hk
    refine ⟨?_, (List.take_sublist _ _).subperm⟩
    simpa [takeSample] using Nat.min_eq_left hk
  have h := c5_sampling takeSample [0, 1] scoreW 2 hs (by decide)
  exact ⟨h.1.1, h.2⟩

/-! ## Shared helpers for the ingestion proofs -/

/-- `dictInsert` keeps every existing key. -/
lemma hasKey_dictInsert_of {store : CatStore} {k' : Option String}
    (k : Option String) (v : BuilderCategory)
    (h : hasKey store k' = true) :
    hasKey (dictInsert store k v) k' = true := by
  unfold dictInsert
  by_cases hk : hasKey store k = true
  · rw [if_pos hk]
    obtain ⟨e, hmem, he⟩ := List.any_eq_true.mp h
    refine List.any_eq_true.mpr ⟨if e.1 = k then (k, v) else e, ?_, ?_⟩
    · exact List.mem_map.mpr ⟨e, hmem, rfl⟩
    · by_cases hek : e.1 = k
      · simpa [hek] using he
      · simpa [hek] using he
  · rw [if_neg hk]
    unfold hasKey at h ⊢
    rw [List.any_append, h, Bool.true_or]

/-- The inserted key is present after `dictInsert`. -/
lemma hasKey_dictInsert_self (store : CatStore) (k : Option String)
    (v : BuilderCategory) :
    hasKey (dictInsert store k v) k = true := by
  unfold dictInsert
  by_cases hk : hasKey store k = true
  · rw [if_pos hk]
    obtain ⟨e, hmem, he⟩ := List.any_eq_true.mp hk
    refine List.any_eq_true.mpr ⟨if e.1 = k then (k, v) else e, ?_, ?_⟩
    · exact List.mem_map.mpr ⟨e, hmem, rfl⟩
    · simp [of_decide_eq_true he]
  · rw [if_neg hk]
    unfold hasKey
    rw [List.any_append]
    simp
/-- `appendChild` changes no key. -/
lemma hasKey_appendChild (store : CatStore) (pk cid k' : Option String) :
    hasKey (appendChild store pk cid) k' = hasKey store k' := by
  induction store with
  | nil => rfl
  | cons e es ih =>
      by_cases hek : e.1 = pk
      · simp [appendChild, hasKey, hek] at ih ⊢
        rw [ih]
      · simp [appendChild, hasKey, hek] at ih ⊢
        rw [ih]

/-- `linkParent` changes no key. -/
lemma hasKey_linkParent (store : CatStore) (parent_id cid k' : Option String) :
    hasKey (linkParent store parent_id cid) k' = hasKey store k' := by
  cases parent_id with
  | none => rfl
  | some p =>
      simp only [linkParent]
      by_cases hc : p ≠ "" ∧ hasKey store (some p) = true
      · rw [if_pos hc, hasKey_appendChild]
      · rw [if_neg hc]

/-- `parseCategoriesRec` keeps every existing key. -/
lemma parse_preserves_key (forest : List XmlCat) (parent_id : Option String)
    (parent_path : String) (level : ℕ) (store : CatStore)
    (k : Option String) (h : hasKey store k = true) :
    hasKey (parseCategoriesRec forest parent_id parent_path level store) k
      = true := by
  match forest with
  | [] => simpa [parseCategoriesRec] using h
  | XmlCat.mk cid name children :: rest =>
      simp only [parseCategoriesRec]
      apply parse_preserves_key rest
      apply parse_preserves_key children
      rw [hasKey_linkParent]
      exact hasKey_dictInsert_of cid _ h

/-- Every traversed node ends up stored under its declared (possibly
absent) identifier. -/
lemma parse_stores_all (forest : List XmlCat) (parent_id : Option String)
    (parent_path : String) (level : ℕ) (store : CatStore) :
    ∀ node ∈ allNodes forest,
      hasKey (parseCategoriesRec forest parent_id parent_path level store)
        node.idOf = true := by
  match forest with
  | [] =>
      intro node hn
      simp [allNodes] at hn
  | XmlCat.mk cid name children :: rest =>
      intro node hn
      rw [allNodes, List.mem_cons, List.mem_append] at hn
      simp only [parseCategoriesRec]
      rcases hn with rfl | hn | hn
      · apply parse_preserves_key rest
        apply parse_preserves_key children
        show hasKey _ cid = true
        rw [hasKey_linkParent]
        exact hasKey_dictInsert_self store cid _
      · exact parse_preserves_key rest _ _ _ _ _
          (parse_stores_all children cid _ (level + 1) _ node hn)
      · exact parse_stores_all rest parent_id parent_path level _ node hn

/-! ## C7: ingestion of malformed nodes -/

/-- C7, counterexample: a node whose `id` attribute is absent is neither
rejected nor does it raise — `_parse_categories_recursive` stores it under
the key `None` and returns normally. -/
theorem c7_missing_id_counterexample :
    parseCategoriesRec [XmlCat.mk none "X" []] none "" 0 []
      = [(none, { id := none, name_de := "X", name_en := none,
                  parent_id := none, children_ids := [], level := 0,
                  full_path_de := "X" })]
    ∧ hasKey (parseCategoriesRec [XmlCat.mk none "X" []] none "" 0 []) none
        = true := by
  constructor
  · simp [parseCategoriesRec, linkParent, dictInsert, hasKey]
  · simp [parseCategoriesRec, linkParent, dictInsert, hasKey]

/-- C7, amended: ingestion never fails on a structurally well-formed tree —
there is no `IngestError` anywhere in the code — and every traversed node,
a node with a missing identifier included, is stored under its declared
(possibly absent) identifier; only an unparsable document (an
`ET.parse` exception) aborts the run, before any category is stored. -/
theorem c7_missing_id_amended (forest : List XmlCat)
    (parent_id : Option String) (parent_path : String) (level : ℕ)
    (store : CatStore) (node : XmlCat) (hmem : node ∈ allNodes forest) :
    hasKey (parseCategoriesRec forest parent_id parent_path level store)
      node.idOf = true :=
  parse_stores_all forest parent_id parent_path level store node hmem

/-- C7, witness at a one-node forest with a present identifier. -/
theorem c7_missing_id_amended_witness :
    hasKey (parseCategoriesRec [XmlCat.mk (some "A") "Holz" []] none "" 0 [])
      (XmlCat.mk (some "A") "Holz" []).idOf = true :=
  c7_missing_id_amended [XmlCat.mk (some "A") "Holz" []] none "" 0 []
    (XmlCat.mk (some "A") "Holz" []) (by simp [allNodes])

/-! ## Shared helpers for the graph round-trip proofs -/

/-- String concatenation is left-cancellative. -/
lemma string_append_cancel {a b c : String} (h : a ++ b = a ++ c) : b = c := by
  have hd : a.data ++ b.data = a.data ++ c.data := by
    have h2 := congrArg String.data h
    simpa [String.data_append] using h2
  have h3 : b.data = c.data := List.append_cancel_left hd
  cases b
  cases c
  exact congrArg String.mk (by simpa using h3)

/-- `find?` returns the element when it is the unique match. -/
lemma find?_eq_some_of_unique {α : Type} (p : α → Bool) (a : α) :
    ∀ (l : List α), a ∈ l → p a = true →
      (∀ b ∈ l, p b = true → b = a) → l.find? p = some a := by
  intro l
  induction l with
  | nil => intro ha; cases ha
  | cons x xs ih =>
      intro ha hpa huniq
      by_cases hx : p x = true
      · rw [List.find?_cons_of_pos _ hx, huniq x (List.mem_cons_self x xs) hx]
      · rw [List.find?_cons_of_neg _ (by simpa using hx)]
        rcases List.mem_cons.mp ha with rfl | ha'
        · exact absurd hpa hx
        · exact ih ha' hpa
            (fun b hb hpb => huniq b (List.mem_cons_of_mem _ hb) hpb)

/-- `classUri` is injective across a store with duplicate-free sanitized
names. -/
lemma classUri_inj_on {store : List RdfCategory}
    (hnames : (store.map (fun c => _name_to_class_name c.name_de)).Nodup)
    {c₁ c₂ : RdfCategory} (h1 : c₁ ∈ store) (h2 : c₂ ∈ store)
    (h : classUri c₁.name_de = classUri c₂.name_de) : c₁ = c₂ :=
  List.inj_on_of_nodup_map hnames h1 h2 (string_append_cancel h)

/-- Category values are determined by their id in a store with
duplicate-free ids. -/
lemma id_inj_on {store : List RdfCategory}
    (hids : (store.map RdfCategory.id).Nodup)
    {c₁ c₂ : RdfCategory} (h1 : c₁ ∈ store) (h2 : c₂ ∈ store)
    (h : c₁.id = c₂.id) : c₁ = c₂ :=
  List.inj_on_of_nodup_map hids h1 h2 h

/-- Every `okobaudatCategory` triple of the exported graph is the
cross-reference of some stored category. -/
lemma okoCat_triple_of_mem {store : List RdfCategory} {t : Triple}
    (ht : t ∈ build_complete_graph store)
    (hp : t.pred = okobaudatCategoryProp) :
    ∃ c ∈ store,
      t = { subj := classUri c.name_de, pred := okobaudatCategoryProp,
            obj := catUri c.id } := by
  rw [build_complete_graph, List.mem_append] at ht
  rcases ht with ht | ht
  · exfalso
    simp only [definePropertyTriples, List.mem_cons, List.not_mem_nil,
      or_false] at ht
    rcases ht with rfl | rfl | rfl | rfl <;>
      simp [rdfType, rdfsLabel, rdfsComment, okobaudatCategoryProp,
        rdfsSubClassOf] at hp
  · simp only [List.mem_flatten, List.mem_map] at ht
    obtain ⟨l, ⟨c, hc, rfl⟩, htl⟩ := ht
    refine ⟨c, hc, ?_⟩
    simp only [add_category_to_graph, List.mem_append, List.mem_cons,
      List.mem_singleton, List.mem_map, Option.mem_toList, Option.mem_def,
      Option.bind_eq_some, Option.map_eq_some', List.not_mem_nil,
      or_false] at htl
    rcases htl with (((((h | h) | ⟨e, he, h⟩) | h) | ⟨e, he, h⟩) | h)
        | ⟨p, hp2, pc, hfind, h⟩
    · subst h
      simp [rdfType, okobaudatCategoryProp] at hp
    · subst h
      simp [rdfsLabel, okobaudatCategoryProp] at hp
    · subst h
      simp [rdfsLabel, okobaudatCategoryProp] at hp
    · subst h
      simp [rdfsComment, okobaudatCategoryProp] at hp
    · subst h
      simp [rdfsComment, okobaudatCategoryProp] at hp
    · exact h
    · subst h
      simp [rdfsSubClassOf, okobaudatCategoryProp] at hp

/-- The cross-reference triple of every stored category is in the graph. -/
lemma okoCat_triple_mem {store : List RdfCategory} {c : RdfCategory}
    (hc : c ∈ store) :
    ({ subj := classUri c.name_de, pred := okobaudatCategoryProp,
       obj := catUri c.id } : Triple) ∈ build_complete_graph store := by
  rw [build_complete_graph, List.mem_append]
  right
  simp only [List.mem_flatten, List.mem_map]
  refine ⟨add_category_to_graph store c, ⟨c, hc, rfl⟩, ?_⟩
  simp [add_category_to_graph]

/-- Every `rdfs:subClassOf` triple of the exported graph is the parent edge
of some stored category whose truthy parent id resolves in the store. -/
lemma sub_triple_of_mem {store : List RdfCategory} {t : Triple}
    (ht : t ∈ build_complete_graph store)
    (hp : t.pred = rdfsSubClassOf) :
    ∃ c ∈ store, ∃ p, strTruthy c.parent_id = some p ∧
      ∃ pc, store.find? (fun d => d.id = p) = some pc ∧
        t = { subj := classUri c.name_de, pred := rdfsSubClassOf,
              obj := classUri pc.name_de } := by
  rw [build_complete_graph, List.mem_append] at ht
  rcases ht with ht | ht
  · exfalso
    simp only [definePropertyTriples, List.mem_cons, List.not_mem_nil,
      or_false] at ht
    rcases ht with rfl | rfl | rfl | rfl <;>
      simp [rdfType, rdfsLabel, rdfsComment, okobaudatCategoryProp,
        rdfsSubClassOf] at hp
  · simp only [List.mem_flatten, List.mem_map] at ht
    obtain ⟨l, ⟨c, hc, rfl⟩, htl⟩ := ht
    refine ⟨c, hc, ?_⟩
    simp only [add_category_to_graph, List.mem_append, List.mem_cons,
      List.mem_singleton, List.mem_map, Option.mem_toList, Option.mem_def,
      Option.bind_eq_some, Option.map_eq_some', List.not_mem_nil,
      or_false] at htl
    rcases htl with (((((h | h) | ⟨e, he, h⟩) | h) | ⟨e, he, h⟩) | h)
        | ⟨p, hp2, pc, hfind, h⟩
    · subst h
      simp [rdfType, rdfsSubClassOf] at hp
    · subst h
      simp [rdfsLabel, rdfsSubClassOf] at hp
    · subst h
      simp [rdfsLabel, rdfsSubClassOf] at hp
    · subst h
      simp [rdfsComment, rdfsSubClassOf] at hp
    · subst h
      simp [rdfsComment, rdfsSubClassOf] at hp
    · subst h
      simp [okobaudatCategoryProp, rdfsSubClassOf] at hp
    · exact ⟨p, hp2, pc, hfind, h.symm⟩

/-- The parent edge of a stored category with a truthy, resolving parent id
is in the graph. -/
lemma sub_triple_mem {store : List RdfCategory} {c pc : RdfCategory}
    {p : String} (hc : c ∈ store) (hp : strTruthy c.parent_id = some p)
    (hfind : store.find? (fun d => d.id = p) = some pc) :
    ({ subj := classUri c.name_de, pred := rdfsSubClassOf,
       obj := classUri pc.name_de } : Triple) ∈ build_complete_graph store := by
  rw [build_complete_graph, List.mem_append]
  right
  simp only [List.mem_flatten, List.mem_map]
  refine ⟨add_category_to_graph store c, ⟨c, hc, rfl⟩, ?_⟩
  simp only [add_category_to_graph, List.mem_append, List.mem_cons,
    List.mem_singleton, List.mem_map, Option.mem_toList, Option.mem_def,
    Option.bind_eq_some, Option.map_eq_some', List.not_mem_nil, or_false]
  refine Or.inr ⟨p, hp, pc, hfind, ?_⟩
  rfl

/-- In a well-formed store, the spec-modelled re-ingestion recovers each
category's parent identifier from its class node. -/
lemma parent_of_classUri {store : List RdfCategory}
    (hids : (store.map RdfCategory.id).Nodup)
    (hnames : (store.map (fun c => _name_to_class_name c.name_de)).Nodup)
    (hpar : ∀ c ∈ store, ∀ p, c.parent_id = some p → ∃ d ∈ store, d.id = p)
    (hne : ∀ c ∈ store, c.id ≠ "")
    {c : RdfCategory} (hc : c ∈ store) :
    parent_of (build_complete_graph store) (classUri c.name_de)
      = c.parent_id.map catUri := by
  cases hpid : c.parent_id with
  | none =>
      have hfind : (build_complete_graph store).find?
          (fun u => u.pred = rdfsSubClassOf ∧ u.subj = classUri c.name_de)
          = none := by
        rw [List.find?_eq_none]
        intro u hu hcond
        obtain ⟨hupred, husubj⟩ := of_decide_eq_true hcond
        obtain ⟨c', hc', p, hp', pc, hfindp, rfl⟩ :=
          sub_triple_of_mem hu hupred
        have : c' = c := classUri_inj_on hnames hc' hc husubj
        subst this
        rw [hpid] at hp'
        exact Option.noConfusion hp'
      rw [parent_of, hfind]
      rfl
  | some p =>
      obtain ⟨d, hd, hdid⟩ := hpar c hc p hpid
      have hpne : p ≠ "" := hdid ▸ hne d hd
      have hptruthy : strTruthy c.parent_id = some p := by
        rw [hpid]
        simp [strTruthy, hpne]
      have hfd : store.find? (fun e => e.id = p) = some d := by
        refine find?_eq_some_of_unique _ d store hd (by simpa using hdid) ?_
        intro b hb hpb
        exact id_inj_on hids hb hd
          (by rw [of_decide_eq_true hpb, hdid])
      have hfind1 : (build_complete_graph store).find?
          (fun u => u.pred = rdfsSubClassOf ∧ u.subj = classUri c.name_de)
          = some { subj := classUri c.name_de, pred := rdfsSubClassOf,
                   obj := classUri d.name_de } := by
        refine find?_eq_some_of_unique _ _ _
          (sub_triple_mem hc hptruthy hfd) (by simp) ?_
        intro u hu hcond
        obtain ⟨hupred, husubj⟩ := of_decide_eq_true hcond
        obtain ⟨c', hc', p', hp', pc', hfindp', rfl⟩ :=
          sub_triple_of_mem hu hupred
        have hcc : c' = c := classUri_inj_on hnames hc' hc husubj
        subst hcc
        rw [hptruthy] at hp'
        obtain rfl : p' = p := (Option.some.inj hp').symm
        rw [hfd] at hfindp'
        obtain rfl : pc' = d := (Option.some.inj hfindp').symm
        rfl
      have hfind2 : (build_complete_graph store).find?
          (fun v => v.pred = okobaudatCategoryProp
            ∧ v.subj = classUri d.name_de)
          = some { subj := classUri d.name_de,
                   pred := okobaudatCategoryProp, obj := catUri d.id } := by
        refine find?_eq_some_of_unique _ _ _
          (okoCat_triple_mem hd) (by simp) ?_
        intro v hv hcond
        obtain ⟨hvpred, hvsubj⟩ := of_decide_eq_true hcond
        obtain ⟨c'', hc'', rfl⟩ := okoCat_triple_of_mem hv hvpred
        have : c'' = d := classUri_inj_on hnames hc'' hd hvsubj
        subst this
        rfl
      rw [parent_of, hfind1]
      simp only [hfind2]
      rw [hdid]
      rfl

/-! ## C9: graph export round trip -/

/-- C9, counterexample: the exported class node depends only on the
sanitized native label, so the distinct categories named `A.B` and `AB`
(ids 1 and 2, the second a child of the first) share one class node, and
re-ingesting the exported graph does not reproduce the original
(identifier, parent-identifier) pairs — the root comes back as its own
child. -/
theorem c9_roundtrip_counterexample :
    _name_to_class_name "A.B" = _name_to_class_name "AB"
    ∧ "A.B" ≠ "AB"
    ∧ classUri "A.B" = classUri "AB"
    ∧ reingest_pairs (build_complete_graph rdfStoreBad)
        ≠ rdfStoreBad.map (fun c => (catUri c.id, c.parent_id.map catUri)) := by
  refine ⟨by decide, by decide, by decide, ?_⟩
  decide

/-- C9, amended: the round trip holds only for stores in which the
sanitized native labels are pairwise distinct (and ids are distinct,
non-empty, with parents present): then the pairs read back from the
exported graph are exactly the (identifier, parent-identifier) pairs of
the store, rendered through the injective `catUri`.  Without distinct
sanitized labels the class-node mapping conflates categories, as the
counterexample shows. -/
theorem c9_roundtrip_amended (store : List RdfCategory)
    (hids : (store.map RdfCategory.id).Nodup)
    (hnames : (store.map (fun c => _name_to_class_name c.name_de)).Nodup)
    (hpar : ∀ c ∈ store, ∀ p, c.parent_id = some p → ∃ d ∈ store, d.id = p)
    (hne : ∀ c ∈ store, c.id ≠ "") :
    (∀ pr, pr ∈ reingest_pairs (build_complete_graph store) ↔
        ∃ c ∈ store, pr = (catUri c.id, c.parent_id.map catUri))
    ∧ ∀ i j, catUri i = catUri j → i = j := by
  constructor
  · intro pr
    constructor
    · intro hpr
      simp only [reingest_pairs, List.mem_map, List.mem_filter] at hpr
      obtain ⟨t, ⟨ht, htp⟩, rfl⟩ := hpr
      obtain ⟨c, hc, rfl⟩ := okoCat_triple_of_mem ht (of_decide_eq_true htp)
      refine ⟨c, hc, ?_⟩
      show (catUri c.id,
          parent_of (build_complete_graph store) (classUri c.name_de))
        = (catUri c.id, c.parent_id.map catUri)
      rw [parent_of_classUri hids hnames hpar hne hc]
    · rintro ⟨c, hc, rfl⟩
      simp only [reingest_pairs, List.mem_map, List.mem_filter]
      refine ⟨{ subj := classUri c.name_de, pred := okobaudatCategoryProp,
                obj := catUri c.id }, ⟨okoCat_triple_mem hc, by simp⟩, ?_⟩
      show (catUri c.id,
          parent_of (build_complete_graph store) (classUri c.name_de))
        = (catUri c.id, c.parent_id.map catUri)
      rw [parent_of_classUri hids hnames hpar hne hc]
  · intro i j h
    exact string_append_cancel h

/-- C9, witness: on a two-category tree with distinct sanitized labels, the
child's pair is read back from the exported graph. -/
theorem c9_roundtrip_amended_witness :
    (catUri "2", some (catUri "1"))
      ∈ reingest_pairs (build_complete_graph rdfStoreW) := by
  have h := c9_roundtrip_amended rdfStoreW (by decide) (by decide)
    (by
      intro c hc p hp
      rw [rdfStoreW, List.mem_cons, List.mem_cons] at hc
      rcases hc with rfl | rfl | hc
      · exact absurd hp (by simp [rdfW1])
      · refine ⟨rdfW1, by simp [rdfStoreW], ?_⟩
        have : some "1" = some p := hp
        rw [rdfW1, ← Option.some.inj this]
      · simp at hc)
    (by decide)
  exact (h.1 (catUri "2", some (catUri "1"))).mpr
    ⟨rdfW2, by simp [rdfStoreW], rfl⟩

end Oekobaudat
